import Mathlib

/-!
Verification development for the `log` repository (package `log`), a
structured-logging pipeline.  The definitions below are shallow embeddings of
the Go source: flag constants and `LogLevel.String` from the constants file,
the per-record compiled-output cache (`entry.go`), the renderer functions and
the reference-counted output wrapper (`output.go`), and the dispatch manager
with its single worker goroutine (the manager file).  Machine integers are
modelled as `Nat`/`Int`; Go slices as `List`; a Go panic as `Option.none`;
Go identifiers containing the letter sequence of a reserved word are renamed
(`F_Pref` for the all-prefixes flag, `F_LastPref` for the last-only flag,
`prefs` for the prefix list field).
-/

namespace LogRepo

/-! ### Flag constants (source: `const ( F_Time = 1 << iota; ... )`) -/

def F_Time : Nat := 1
def F_Micro : Nat := 2
def F_Pref : Nat := 4
def F_LastPref : Nat := 8
def F_Level : Nat := 16
def F_NewLine : Nat := 32
def F_Fields : Nat := 64
def F_Fields_A : Nat := 128
def F_Fields_B : Nat := 256
def F_NotSave : Nat := 512

/-- `OutputType` from the source (`T_Text`, `T_JSON`). -/
inductive OType where
  | text
  | json
deriving DecidableEq

/-- `LogLevel.String` from the source: `switch` over the integer level.
`LogLevel` is a Go `int`, so the argument is `Int`. -/
def logLevelString (l : Int) : String :=
  if l = 0 then "DEGUB"
  else if l = 1 then "INFO"
  else if l = 2 then "WARN"
  else if l = 3 then "ERROR"
  else if l = 4 then "FATAL"
  else "UNKNOWN"

/-! ### The per-record compiled-output cache (`entry.go`)

A cache entry is `Compiled{Flag, OutputType, Buf}`; buffers are identified by
a `Nat` id.  `addCompiled`/`getCompiled` embed `*LogEntry.AddCompiled` and
`*LogEntry.GetCompiled`; `addCompiled` additionally returns the list of
buffers it put back into the `sync.Pool`. -/

structure Compiled where
  flag : Nat
  otype : OType
  buf : Nat
deriving DecidableEq

def cacheKey (v : Compiled) : Nat × OType := (v.flag, v.otype)

/-- The scan loop of `AddCompiled`: does the cache already hold an entry with
these flags and output type? -/
def cacheHas : List Compiled → Nat → OType → Bool
  | [], _, _ => false
  | v :: rest, flags, t =>
    if v.flag = flags ∧ v.otype = t then true else cacheHas rest flags t

/-- The scan loop of `GetCompiled`: first matching buffer, if any. -/
def cacheFind : List Compiled → Nat → OType → Option Nat
  | [], _, _ => none
  | v :: rest, flags, t =>
    if v.flag = flags ∧ v.otype = t then some v.buf else cacheFind rest flags t

/-- `*LogEntry.AddCompiled`: with `F_NotSave` the buffer goes straight back to
the pool; with a duplicate `(flags, outputType)` entry the new buffer goes to
the pool and the cache is untouched; otherwise the entry is appended.
Returns the new cache and the buffers put into the pool. -/
def addCompiled (cache : List Compiled) (flags : Nat) (t : OType) (b : Nat) :
    List Compiled × List Nat :=
  if flags &&& F_NotSave ≠ 0 then (cache, [b])
  else if cacheHas cache flags t then (cache, [b])
  else (cache ++ [⟨flags, t, b⟩], [])

/-- `*LogEntry.GetCompiled`: with `F_NotSave` always a miss, otherwise a
linear scan for the exact `(flags, outputType)` pair. -/
def getCompiled (cache : List Compiled) (flags : Nat) (t : OType) : Option Nat :=
  if flags &&& F_NotSave ≠ 0 then none
  else cacheFind cache flags t

/-! ### Theorems for claims C7 and C10 -/

/-- **C7** — On a fresh Record (empty cache), `AddCompiled(flags=5, Text, buf)`
followed by `GetCompiled(5, Text)` returns the same buffer with `ok = true`,
while `GetCompiled(5, JSON)` returns `ok = false` (modelled as `none`). -/
theorem c7_cache_round_trip (b : Nat) :
    getCompiled (addCompiled [] 5 OType.text b).1 5 OType.text = some b ∧
    getCompiled (addCompiled [] 5 OType.text b).1 5 OType.json = none :=
  ⟨rfl, rfl⟩

/-- **C10** — `LogLevel.String` returns the misspelled label `"DEGUB"` for
level 0 (Debug), `"INFO"`, `"WARN"`, `"ERROR"`, `"FATAL"` for 1–4, and
`"UNKNOWN"` for every ordinal outside 0–4 (negative ones included). -/
theorem c10_level_labels :
    logLevelString 0 = "DEGUB" ∧ logLevelString 1 = "INFO" ∧
    logLevelString 2 = "WARN" ∧ logLevelString 3 = "ERROR" ∧
    logLevelString 4 = "FATAL" ∧
    ∀ l : Int, (l < 0 ∨ 4 < l) → logLevelString l = "UNKNOWN" := by
  refine ⟨rfl, rfl, rfl, rfl, rfl, ?_⟩
  intro l h
  unfold logLevelString
  rw [if_neg (by omega), if_neg (by omega), if_neg (by omega),
    if_neg (by omega), if_neg (by omega)]

/-- Witness for C10 at the concrete out-of-range ordinal 7. -/
theorem c10_level_labels_witness : logLevelString 7 = "UNKNOWN" :=
  c10_level_labels.2.2.2.2.2 7 (Or.inr (by norm_num))

/-! ### Claim C6: the cache invariant -/

/-- On a `cacheHas`-miss the sought key is absent from the cache. -/
theorem cacheHas_eq_false {cache : List Compiled} {flags : Nat} {t : OType}
    (h : cacheHas cache flags t = false) : (flags, t) ∉ cache.map cacheKey := by
  induction cache with
  | nil => simp
  | cons v rest ih =>
    rw [cacheHas] at h
    split at h
    · exact absurd h (by simp)
    · rename_i hne
      simp only [List.map_cons, List.mem_cons, not_or]
      refine ⟨?_, ih h⟩
      intro hk
      apply hne
      have h1 : cacheKey v = (flags, t) := hk.symm
      exact ⟨congrArg Prod.fst h1, congrArg Prod.snd h1⟩

/-- **C6** — `AddCompiled` keeps at most one cache entry per
`(flags, outputType)` pair: starting from a cache whose keys are distinct, the
cache after any `AddCompiled` call still has distinct keys, and a call whose
pair is already cached leaves the cache unchanged and sends the new buffer to
the pool (first successful write wins). -/
theorem c6_cache_invariant (cache : List Compiled) (flags : Nat) (t : OType)
    (b : Nat) (h : (cache.map cacheKey).Nodup) :
    ((addCompiled cache flags t b).1.map cacheKey).Nodup ∧
    (cacheHas cache flags t = true → addCompiled cache flags t b = (cache, [b])) := by
  unfold addCompiled
  split
  · exact ⟨h, fun _ => rfl⟩
  · split
    · exact ⟨h, fun _ => rfl⟩
    · rename_i hns hhas
      have hf : cacheHas cache flags t = false := by
        cases hc : cacheHas cache flags t
        · rfl
        · exact absurd hc hhas
      constructor
      · rw [List.map_append, List.nodup_append]
        refine ⟨h, by simp, ?_⟩
        intro k hk hk2
        have hk3 : k = (flags, t) := by
          simpa [cacheKey] using hk2
        exact cacheHas_eq_false hf (hk3 ▸ hk)
      · intro hc
        exact absurd hc hhas

/-- Witness for C6 on a concrete two-entry cache holding the pair `(5, Text)`,
so both conjuncts fire. -/
theorem c6_cache_invariant_witness :
    ((addCompiled [⟨5, OType.text, 0⟩, ⟨6, OType.json, 1⟩] 5 OType.text 2).1.map
        cacheKey).Nodup ∧
    (cacheHas [⟨5, OType.text, 0⟩, ⟨6, OType.json, 1⟩] 5 OType.text = true →
      addCompiled [⟨5, OType.text, 0⟩, ⟨6, OType.json, 1⟩] 5 OType.text 2 =
        ([⟨5, OType.text, 0⟩, ⟨6, OType.json, 1⟩], [2])) :=
  c6_cache_invariant [⟨5, OType.text, 0⟩, ⟨6, OType.json, 1⟩] 5 OType.text 2
    (by decide)

/-! ### JSON renderer (`JSONLogFunc`, `output.go`)

The renderer builds an ordered map `M` (a list of key/value pairs, duplicate
keys allowed) and marshals it.  We model field values opaquely (`Nat`) and the
map entries structurally via `JVal`; the record fields are a
`List (String × Nat)`. -/

inductive JVal where
  | str : String → JVal
  | timeVal : JVal
  | prefLast : String → JVal
  | prefAll : List String → JVal
  | obj : List (String × Nat) → JVal
  | arr : List (String × Nat) → JVal
  | nat : Nat → JVal
deriving DecidableEq

/-- The field-embedding section of `JSONLogFunc` (the cascade
`if flags&F_Fields_A != 0 { ... } else if flags&F_Fields != 0 { ... } else if
flags&F_Fields_B != 0 { ... }`, guarded by non-empty fields and the combined
mask). -/
def jsonFieldsPart (flags : Nat) (fields : List (String × Nat)) :
    List (String × JVal) :=
  if fields ≠ [] ∧ flags &&& (F_Fields ||| F_Fields_A ||| F_Fields_B) ≠ 0 then
    if flags &&& F_Fields_A ≠ 0 then [("fields", JVal.obj fields)]
    else if flags &&& F_Fields ≠ 0 then fields.map (fun p => (p.1, JVal.nat p.2))
    else if flags &&& F_Fields_B ≠ 0 then [("fields", JVal.arr fields)]
    else []
  else []

/-- The record data consumed by `JSONLogFunc`. -/
structure JEntry where
  prefs : List String
  level : Int
  msg : String
  fields : List (String × Nat)

/-- `JSONLogFunc`'s map construction: time, prefix, level, fields, msg, in
source order. -/
def jsonMap (flags : Nat) (e : JEntry) : List (String × JVal) :=
  (if flags &&& F_Time ≠ 0 then [("time", JVal.timeVal)] else [])
    ++ (if e.prefs ≠ [] ∧ flags &&& (F_Pref ||| F_LastPref) ≠ 0 then
          if flags &&& F_LastPref ≠ 0 then
            [("prefix", JVal.prefLast (e.prefs.getLastD ""))]
          else [("prefix", JVal.prefAll e.prefs)]
        else [])
    ++ (if flags &&& F_Level ≠ 0 then
          [("level", JVal.str (logLevelString e.level))]
        else [])
    ++ jsonFieldsPart flags e.fields
    ++ [("msg", JVal.str e.msg)]

/-! Bitmask helper lemmas: a number sharing a bit with `a` shares a bit with
`a ||| b`, and symmetrically. -/

theorem and_or_absorb_left (x a b : Nat) :
    (x &&& a) ||| (x &&& (a ||| b)) = x &&& (a ||| b) := by
  apply Nat.eq_of_testBit_eq
  intro i
  simp only [Nat.testBit_or, Nat.testBit_and]
  cases x.testBit i <;> cases a.testBit i <;> cases b.testBit i <;> rfl

theorem and_or_absorb_right (x a b : Nat) :
    (x &&& b) ||| (x &&& (a ||| b)) = x &&& (a ||| b) := by
  apply Nat.eq_of_testBit_eq
  intro i
  simp only [Nat.testBit_or, Nat.testBit_and]
  cases x.testBit i <;> cases a.testBit i <;> cases b.testBit i <;> rfl

theorem and_or_ne_zero_left {x a : Nat} (b : Nat) (h : x &&& a ≠ 0) :
    x &&& (a ||| b) ≠ 0 := by
  intro h0
  apply h
  have h1 := and_or_absorb_left x a b
  rw [h0] at h1
  simpa using h1

theorem and_or_ne_zero_right {x b : Nat} (a : Nat) (h : x &&& b ≠ 0) :
    x &&& (a ||| b) ≠ 0 := by
  intro h0
  apply h
  have h1 := and_or_absorb_right x a b
  rw [h0] at h1
  simpa using h1

/-! ### Claim C5: field-embedding precedence -/

/-- **C5, counterexample** — with both `F_Fields` (top-level keys) and
`F_Fields_A` (nested object) set, `JSONLogFunc` embeds the fields as a nested
object under the single key `"fields"`, not as top-level keys as the claim's
precedence (top-level first) predicts. -/
theorem c5_counterexample :
    jsonFieldsPart (F_Fields ||| F_Fields_A) [("a", 1)] ≠
      [("a", JVal.nat 1)] ∧
    jsonFieldsPart (F_Fields ||| F_Fields_A) [("a", 1)] =
      [("fields", JVal.obj [("a", 1)])] := by
  constructor
  · decide
  · decide

/-- **C5, amended** — when the record has fields and at least one
field-embedding bit is set, exactly one embedding style is applied, chosen by
the fixed precedence nested object (`F_Fields_A`) over top-level keys
(`F_Fields`) over nested array (`F_Fields_B`). -/
theorem c5_fields_precedence (flags : Nat) (fs : List (String × Nat))
    (hfs : fs ≠ []) :
    (flags &&& F_Fields_A ≠ 0 →
      jsonFieldsPart flags fs = [("fields", JVal.obj fs)]) ∧
    (flags &&& F_Fields_A = 0 → flags &&& F_Fields ≠ 0 →
      jsonFieldsPart flags fs = fs.map (fun p => (p.1, JVal.nat p.2))) ∧
    (flags &&& F_Fields_A = 0 → flags &&& F_Fields = 0 →
      flags &&& F_Fields_B ≠ 0 →
      jsonFieldsPart flags fs = [("fields", JVal.arr fs)]) := by
  refine ⟨?_, ?_, ?_⟩
  · intro hA
    have hm : flags &&& (F_Fields ||| F_Fields_A ||| F_Fields_B) ≠ 0 :=
      and_or_ne_zero_left _ (and_or_ne_zero_right _ hA)
    rw [jsonFieldsPart, if_pos ⟨hfs, hm⟩, if_pos hA]
  · intro hA hF
    have hm : flags &&& (F_Fields ||| F_Fields_A ||| F_Fields_B) ≠ 0 :=
      and_or_ne_zero_left _ (and_or_ne_zero_left _ hF)
    rw [jsonFieldsPart, if_pos ⟨hfs, hm⟩, if_neg (by rw [hA]; exact fun h => h rfl),
      if_pos hF]
  · intro hA hF hB
    have hm : flags &&& (F_Fields ||| F_Fields_A ||| F_Fields_B) ≠ 0 :=
      and_or_ne_zero_right _ hB
    rw [jsonFieldsPart, if_pos ⟨hfs, hm⟩, if_neg (by rw [hA]; exact fun h => h rfl),
      if_neg (by rw [hF]; exact fun h => h rfl), if_pos hB]

/-- Witness for C5's amended theorem: with only `F_Fields_B` set, the fields
land as a nested array. -/
theorem c5_fields_precedence_witness :
    jsonFieldsPart F_Fields_B [("a", 1)] = [("fields", JVal.arr [("a", 1)])] :=
  (c5_fields_precedence F_Fields_B [("a", 1)] (by decide)).2.2 (by decide)
    (by decide) (by decide)

/-! ### Text renderer (`TextLogFunc`, `output.go`)

`appendIntGo` embeds the source's `appendInt` digit loop (width-padded decimal
of a non-negative `int`); `textLogFunc` embeds `TextLogFunc`.  The final
newline step reads `entry.Msg[len(entry.Msg)-1]`, which panics in Go when the
message is empty; the panic is modelled as `none`. -/

def appendIntGo (n : Nat) (w : Int) : List Char :=
  if h : 10 ≤ n ∨ 1 < w then
    appendIntGo (n / 10) (w - 1) ++ [Char.ofNat (48 + (n - n / 10 * 10))]
  else [Char.ofNat (48 + n)]
termination_by n + w.toNat
decreasing_by
  rcases h with h | h
  · omega
  · omega

/-- The clock fields `TextLogFunc` reads off the record's `time.Time`. -/
structure GoTime where
  year : Nat
  month : Nat
  day : Nat
  hour : Nat
  minute : Nat
  second : Nat
  nano : Nat
deriving DecidableEq

/-- The record data consumed by `TextLogFunc`. -/
structure TEntry where
  time : GoTime
  prefs : List String
  level : Int
  msg : String

/-- The `F_Time`/`F_Micro` block of `TextLogFunc`. -/
def textTimePart (flags : Nat) (t : GoTime) : List Char :=
  if flags &&& (F_Time ||| F_Micro) ≠ 0 then
    appendIntGo t.day 2 ++ ['/'] ++ appendIntGo t.month 2 ++ ['/']
      ++ appendIntGo t.year 4 ++ [' ']
      ++ appendIntGo t.hour 2 ++ [':'] ++ appendIntGo t.minute 2 ++ [':']
      ++ appendIntGo t.second 2
      ++ (if flags &&& F_Micro ≠ 0 then '.' :: appendIntGo (t.nano / 1000) 6
          else [])
      ++ [' ']
  else []

/-- The prefix block of `TextLogFunc` (source flags `F_Prefix` and
`F_LastPrefix`). -/
def textPrefPart (flags : Nat) (ps : List String) : List Char :=
  if ps ≠ [] ∧ flags &&& (F_Pref ||| F_LastPref) ≠ 0 then
    if flags &&& F_LastPref ≠ 0 then
      '[' :: (ps.getLastD "").data ++ (']' :: [' '])
    else (ps.map (fun v => '[' :: v.data ++ (']' :: [' ']))).flatten
  else []

/-- The `F_Level` block of `TextLogFunc`; the label comes from
`LogLevel.String`. -/
def textLevelPart (flags : Nat) (l : Int) : List Char :=
  if flags &&& F_Level ≠ 0 then '[' :: (logLevelString l).data ++ (']' :: [' '])
  else []

/-- `TextLogFunc`: time, prefixes, level label, message, then — only when
`F_NewLine` is set — an unconditional read of the message's last byte to
decide whether to append a newline.  `none` models the Go panic on that read
for an empty message. -/
def textLogFunc (flags : Nat) (e : TEntry) : Option (List Char) :=
  let buf := textTimePart flags e.time ++ textPrefPart flags e.prefs
    ++ textLevelPart flags e.level ++ e.msg.data
  if flags &&& F_NewLine ≠ 0 then
    match e.msg.data.getLast? with
    | none => none
    | some c => some (if c = '\n' then buf else buf ++ ['\n'])
  else some buf

/-! ### Claim C9: bounds safety of the newline read -/

/-- **C9** — with `F_NewLine` set, `TextLogFunc` panics on an empty message
(the last-byte read is out of bounds, modelled as `none`); for every record
with a non-empty message the read is in bounds and the renderer produces
output, as it also does whenever `F_NewLine` is clear. -/
theorem c9_newline_bounds (flags : Nat) (e : TEntry) :
    (flags &&& F_NewLine ≠ 0 → e.msg = "" → textLogFunc flags e = none) ∧
    (e.msg ≠ "" → (textLogFunc flags e).isSome = true) ∧
    (flags &&& F_NewLine = 0 → (textLogFunc flags e).isSome = true) := by
  refine ⟨?_, ?_, ?_⟩
  · intro hnl hmsg
    rw [textLogFunc]
    simp only [hmsg]
    rw [if_pos hnl]
    rfl
  · intro hmsg
    have hd : e.msg.data ≠ [] := by
      intro hdat
      exact hmsg (String.ext hdat)
    rw [textLogFunc]
    by_cases hnl : flags &&& F_NewLine ≠ 0
    · rw [if_pos hnl]
      cases hLast : e.msg.data.getLast? with
      | none =>
        exact absurd (List.getLast?_eq_none_iff.mp hLast) hd
      | some c => rfl
    · rw [if_neg hnl]
      rfl
  · intro hnl
    rw [textLogFunc, if_neg (by rw [hnl]; exact fun h => h rfl)]
    rfl

/-- Witness for C9: with `F_NewLine` set and the non-empty message `"hi"` the
renderer succeeds. -/
theorem c9_newline_bounds_witness :
    (textLogFunc F_NewLine ⟨⟨2024, 1, 2, 3, 4, 5, 0⟩, [], 1, "hi"⟩).isSome
      = true :=
  (c9_newline_bounds F_NewLine ⟨⟨2024, 1, 2, 3, 4, 5, 0⟩, [], 1, "hi"⟩).2.1
    (by decide)

/-! ### Reference-counted output wrapper (`outputWrapper`, `output.go`)

`add` is the registration count (`OnAdd` increments it, a Go `int` starting
at 0).  `LogClose` decrements while `add > 1`; otherwise it invokes
`CloseFunc`.  With `DefaultCloseFunc` the underlying writer is really closed
exactly when the wrapper's `close` flag is set and the writer implements
`io.Closer`; we record whether `CloseFunc` ran and whether it released the
resource. -/

structure Wrapper where
  add : Int
  close : Bool
  closable : Bool
  hasCloseFn : Bool
deriving DecidableEq

/-- `outputWrapper.OnAdd`. -/
def wOnAdd (w : Wrapper) : Wrapper := { w with add := w.add + 1 }

/-- `outputWrapper.LogClose` with `DefaultCloseFunc`: returns the new wrapper
state, whether the underlying resource was released, and the returned error
(`nil` throughout, since `DefaultCloseFunc` only fails if the writer's own
`Close` fails, which we take as succeeding). -/
def wLogClose (w : Wrapper) : Wrapper × Bool × Option Nat :=
  if w.add > 1 then ({ w with add := w.add - 1 }, false, none)
  else if w.hasCloseFn then (w, w.close && w.closable, none)
  else (w, false, none)

/-- Iterating `LogClose` as the Manager's `Close` loop does — once per
occurrence of the wrapper in the registry — counting invocations and
resource releases. -/
def wCloseTimes : Wrapper → Nat → Wrapper × Nat × Nat
  | w, 0 => (w, 0, 0)
  | w, n + 1 =>
    let r := wLogClose w
    let s := wCloseTimes r.1 n
    (s.1, s.2.1 + 1, s.2.2 + (if r.2.1 then 1 else 0))

/-- A fresh wrapper over a closable writer with the close flag set
(`NewTextOutput(w, flags, true)`-style). -/
def w0C8 : Wrapper := ⟨0, true, true, true⟩

/-- The wrapper after its add-reference hook ran twice (two registrations). -/
def w2C8 : Wrapper := wOnAdd (wOnAdd w0C8)

/-- **C8** — a twice-registered wrapper releases its resource only on the
second close: the add count is 2; the first `LogClose` just decrements it to 1
and returns `nil` without touching the resource; the second invokes the close
function and releases the writer; and a Manager `close()` over a registry in
which the wrapper appears twice performs exactly two `LogClose` invocations
with exactly one release. -/
theorem c8_refcount_release :
    w2C8.add = 2 ∧
    wLogClose w2C8 = (⟨1, true, true, true⟩, false, none) ∧
    (wLogClose (wLogClose w2C8).1).2.1 = true ∧
    (wCloseTimes w2C8 2).2 = (2, 1) := by
  refine ⟨rfl, ?_, rfl, rfl⟩
  rfl

/-! ### Dispatch manager (the manager file)

A destination (`Output`) is modelled by its observable behaviour: an identity
tag, whether its `Log` call returns the `ErrOutputClosed` sentinel, and the
error its `LogClose` returns.  The manager holds the registry, the atomic
closed flag, and the pending FIFO queue (channel contents not yet consumed by
the worker). -/

structure Out where
  oid : Nat
  retClosed : Bool
  closeErr : Option Nat
deriving DecidableEq

/-- The first half of the worker's delivery pass: the `rm` index list, built
by iterating the registry in order and recording the index of every output
whose `Log` call returned `ErrOutputClosed`. -/
def sweepRm (outs : List Out) : List Nat :=
  (outs.enum.filter (fun p => p.2.retClosed)).map (fun p => p.1)

/-- The second half of the delivery pass, exactly as in the source: for each
recorded index `i` (with `r` removals already done),
`outputs[i-r] = outputs[len(outputs)-1]` followed by truncation.  The source
indexes into a non-empty slice here; the empty case is unreachable and kept
as a no-op. -/
def compactRm : List Out → List Nat → Nat → List Out
  | outs, [], _ => outs
  | outs, i :: rest, r =>
    match outs.getLast? with
    | none => compactRm outs rest (r + 1)
    | some last => compactRm ((outs.set (i - r) last).dropLast) rest (r + 1)

/-- One worker delivery pass over the registry for one record: deliver to
every output in registration order, then compact away the ones that returned
the closed sentinel. -/
def deliverPass (outs : List Out) : List Out :=
  compactRm outs (sweepRm outs) 0

/-! ### Claim C2: the eviction sweep -/

/-- **C2** — evaluating the worker's sweep on the registry
`[o0, o1, o2]` where `o0` and `o2` return the closed sentinel and `o1` does
not: the claim (and the `ErrOutputClosed` doc comment) require the resulting
registry to be `[o1]`, but the stale-index compaction leaves `[o2]` — the
well-behaved `o1` is evicted and the self-closed `o2` stays registered. -/
theorem c2_sweep_bug :
    deliverPass [⟨0, true, none⟩, ⟨1, false, none⟩, ⟨2, true, none⟩]
      = [⟨2, true, none⟩] ∧
    (⟨1, false, none⟩ : Out) ∉
      deliverPass [⟨0, true, none⟩, ⟨1, false, none⟩, ⟨2, true, none⟩] := by
  refine ⟨rfl, ?_⟩
  decide

/-! ### Manager state and operations -/

/-- An item of the manager's channel: a record id (`none` is the drain
marker sent by `Close`) plus whether a completion channel is attached. -/
structure QItem where
  rid : Option Nat
  hasDone : Bool
deriving DecidableEq

structure Mgr where
  outputs : List Out
  closed : Bool
  queue : List QItem
deriving DecidableEq

inductive MErr where
  | managerClosed
  | outputClosed
deriving DecidableEq

/-- `manager.log`: a closed manager reports `ErrManagerClosed` and nothing is
enqueued; otherwise the item (with a done channel iff blocking) joins the
FIFO queue and the call returns `nil`. -/
def mLog (m : Mgr) (rid : Nat) (block : Bool) : Mgr × Option MErr :=
  if m.closed then (m, some MErr.managerClosed)
  else ({ m with queue := m.queue ++ [⟨some rid, block⟩] }, none)

/-- `manager.addOutput`: silently returns on a closed manager (the function
has no return value), otherwise appends to the registry. -/
def mAddOutput (m : Mgr) (o : Out) : Mgr :=
  if m.closed then m else { m with outputs := m.outputs ++ [o] }

/-- `manager.removeOutput`: swap-remove of the first identity match; no
closed-flag check; returns whether a match was found. -/
def mRemoveOutput (m : Mgr) (o : Out) : Mgr × Bool :=
  match m.outputs.enum.find? (fun p => decide (p.2 = o)) with
  | some p =>
    ({ m with outputs := (m.outputs.set p.1 (m.outputs.getLastD o)).dropLast },
     true)
  | none => (m, false)

/-- The record of one `LogClose` invocation made by `manager.Close`. -/
structure CloseEv where
  oid : Nat
  err : Option Nat
deriving DecidableEq

/-- The worker consuming the queue up to the drain marker: each real record
triggers a delivery pass (with eviction sweep), a marker leaves the registry
alone. -/
def drainQueue : List Out → List QItem → List Out
  | outs, [] => outs
  | outs, it :: rest =>
    drainQueue (if it.rid.isSome then deliverPass outs else outs) rest

/-- `manager.Close`: `ErrManagerClosed` if already closed; otherwise set the
closed flag, drain the queue through the worker, then call `LogClose` on
every remaining output in order — discarding each returned error
(`// TODO add multi errors`) — clear the registry and return `nil`.  The
third component lists the `LogClose` invocations with the errors they
returned (which the source drops). -/
def manClose (m : Mgr) : Mgr × Option MErr × List CloseEv :=
  if m.closed then (m, some MErr.managerClosed, [])
  else
    let outs := drainQueue m.outputs m.queue
    (⟨[], true, []⟩, none, outs.map (fun o => ⟨o.oid, o.closeErr⟩))

/-- Helper: `Close` on a not-yet-closed manager reduces to the draining
branch. -/
theorem manClose_open (m : Mgr) (h : m.closed = false) :
    manClose m
      = (⟨[], true, []⟩, none,
         (drainQueue m.outputs m.queue).map (fun o => ⟨o.oid, o.closeErr⟩)) := by
  rw [manClose, if_neg (by rw [h]; exact Bool.false_ne_true)]

/-! ### Claim C3: error aggregation in `Close` -/

/-- **C3, counterexample** — a manager with one registered destination whose
`LogClose` fails (error id 7): `Close` still invokes that close routine (the
invocation list records the error) but returns `nil`, not the non-nil
aggregate the claim requires. -/
theorem c3_counterexample :
    (manClose ⟨[⟨0, false, some 7⟩], false, []⟩).2.1 = none ∧
    (manClose ⟨[⟨0, false, some 7⟩], false, []⟩).2.2 = [⟨0, some 7⟩] :=
  ⟨rfl, rfl⟩

/-- **C3, amended** — `Close` on a not-yet-closed manager invokes the close
routine of every destination registered after the final drain, in order and
without short-circuiting on failures, but discards every returned error:
it always returns `nil` and clears the registry. -/
theorem c3_close_all (m : Mgr) (h : m.closed = false) :
    (manClose m).2.2
      = (drainQueue m.outputs m.queue).map (fun o => ⟨o.oid, o.closeErr⟩) ∧
    (manClose m).2.1 = none ∧
    (manClose m).1 = ⟨[], true, []⟩ := by
  rw [manClose_open m h]
  exact ⟨rfl, rfl, rfl⟩

/-- Witness for C3's amended theorem on a concrete one-output manager with a
failing close routine. -/
theorem c3_close_all_witness :
    (manClose ⟨[⟨1, false, some 3⟩], false, []⟩).2.2
      = (drainQueue [⟨1, false, some 3⟩] []).map (fun o => ⟨o.oid, o.closeErr⟩) ∧
    (manClose ⟨[⟨1, false, some 3⟩], false, []⟩).2.1 = none ∧
    (manClose ⟨[⟨1, false, some 3⟩], false, []⟩).1 = ⟨[], true, []⟩ :=
  c3_close_all ⟨[⟨1, false, some 3⟩], false, []⟩ rfl

/-! ### Claim C4: operations after `Close` -/

/-- A manager closed by a successful `Close` call. -/
def closedMgrC4 : Mgr := (manClose ⟨[⟨0, false, none⟩], false, []⟩).1

/-- **C4, counterexample** — after a successful `Close`, `addOutput` silently
no-ops (it has no return value, so no manager-closed error is reported) and
`removeOutput` performs no closed-flag check at all, merely returning the
not-found boolean `false` — neither surfaces `ErrManagerClosed` as the claim
requires. -/
theorem c4_counterexample :
    mAddOutput closedMgrC4 ⟨1, false, none⟩ = closedMgrC4 ∧
    mRemoveOutput closedMgrC4 ⟨0, false, none⟩ = (closedMgrC4, false) := by
  constructor
  · rfl
  · rfl

/-- **C4, amended** — after `Close` succeeds: `log` synchronously reports
`ErrManagerClosed` and leaves the manager untouched (nothing is enqueued, so
no destination ever sees the record); a second `Close` also fails with
`ErrManagerClosed`; `addOutput` is a silent no-op; `removeOutput` just
returns `false` on the emptied registry. -/
theorem c4_after_close (m : Mgr) (o : Out) (rid : Nat) (b : Bool)
    (h : m.closed = false) :
    mLog (manClose m).1 rid b = ((manClose m).1, some MErr.managerClosed) ∧
    (manClose (manClose m).1).2.1 = some MErr.managerClosed ∧
    mAddOutput (manClose m).1 o = (manClose m).1 ∧
    mRemoveOutput (manClose m).1 o = ((manClose m).1, false) := by
  have hm1 : (manClose m).1 = ⟨[], true, []⟩ := by
    rw [manClose_open m h]
  rw [hm1]
  exact ⟨rfl, rfl, rfl, rfl⟩

/-- Witness for C4's amended theorem on a concrete manager. -/
theorem c4_after_close_witness :
    mLog (manClose ⟨[⟨0, false, none⟩], false, []⟩).1 5 true
      = ((manClose ⟨[⟨0, false, none⟩], false, []⟩).1, some MErr.managerClosed) ∧
    (manClose (manClose ⟨[⟨0, false, none⟩], false, []⟩).1).2.1
      = some MErr.managerClosed ∧
    mAddOutput (manClose ⟨[⟨0, false, none⟩], false, []⟩).1 ⟨1, false, none⟩
      = (manClose ⟨[⟨0, false, none⟩], false, []⟩).1 ∧
    mRemoveOutput (manClose ⟨[⟨0, false, none⟩], false, []⟩).1 ⟨1, false, none⟩
      = ((manClose ⟨[⟨0, false, none⟩], false, []⟩).1, false) :=
  c4_after_close ⟨[⟨0, false, none⟩], false, []⟩ ⟨1, false, none⟩ 5 true rfl

/-! ### Claim C1: the worker's FIFO delivery order

The worker goroutine ranges over the channel, so it consumes items strictly
in arrival order.  We model an arrival order as a list of work items (each
with an identifying tag, an optional record and an optional done channel) and
the worker as a function producing the ordered trace of its observable
events: one `deliver` event per registered output for a real record, then the
`signal` event (the `close(e.done)` that releases a blocking caller), exactly
in the source's order. -/

/-- One work item as the worker sees it: an identifying tag, the record
(`none` = drain marker) and whether a completion channel is attached
(blocking caller). -/
structure WItem where
  wid : Nat
  rid : Option Nat
  hasDone : Bool
deriving DecidableEq

/-- An observable worker event: delivery of item `wid`'s record to the output
with the given id, or the closing of item `wid`'s done channel. -/
inductive WEv where
  | deliver : Nat → Nat → WEv
  | signal : Nat → WEv
deriving DecidableEq

/-- The item an event belongs to. -/
def evWid : WEv → Nat
  | WEv.deliver i _ => i
  | WEv.signal i => i

/-- The worker's handling of one channel item, following the source: if the
item carries a record, deliver it to every registered output in order and run
the eviction sweep; then, if a done channel is attached, close it. -/
def processItem (outs : List Out) (it : WItem) : List WEv × List Out :=
  ((if it.rid.isSome then outs.map (fun o => WEv.deliver it.wid o.oid) else [])
     ++ (if it.hasDone then [WEv.signal it.wid] else []),
   if it.rid.isSome then deliverPass outs else outs)

/-- The worker consuming a queue of items in FIFO order, returning the full
event trace and the final registry. -/
def workerRun : List Out → List WItem → List WEv × List Out
  | outs, [] => ([], outs)
  | outs, it :: rest =>
    ((processItem outs it).1 ++ (workerRun (processItem outs it).2 rest).1,
     (workerRun (processItem outs it).2 rest).2)

/-- Every event the worker emits while handling one item belongs to that
item. -/
theorem processItem_wid (outs : List Out) (it : WItem) :
    ∀ ev ∈ (processItem outs it).1, evWid ev = it.wid := by
  intro ev hev
  rw [processItem] at hev
  rw [List.mem_append] at hev
  rcases hev with hev | hev
  · by_cases hr : it.rid.isSome
    · rw [if_pos hr, List.mem_map] at hev
      obtain ⟨o, _, ho⟩ := hev
      rw [← ho]
      rfl
    · rw [if_neg hr] at hev
      exact absurd hev (List.not_mem_nil ev)
  · by_cases hdn : it.hasDone
    · rw [if_pos hdn, List.mem_singleton] at hev
      rw [hev]
      rfl
    · rw [if_neg hdn] at hev
      exact absurd hev (List.not_mem_nil ev)

/-- **C1** — for any arrival order consisting of N earlier log calls
(blocking or not, with record or drain marker) followed by one blocking call
with a record, the worker's trace is exactly: the complete trace of the N
earlier items, then the delivery of the blocking item's record to every
registered destination, then — last of all — the closing of its done channel
(the moment the blocking caller returns); and no event of the blocking item
occurs anywhere in the earlier trace.  Deliveries thus happen strictly in
arrival order and the blocking caller returns only after its own delivery
pass completed, after all N prior records were fully delivered. -/
theorem c1_fifo_blocking (outs : List Out) (es : List WItem) (b : WItem)
    (hb : b.rid.isSome = true) (hd : b.hasDone = true)
    (hids : ∀ e ∈ es, e.wid ≠ b.wid) :
    (workerRun outs (es ++ [b])).1
      = (workerRun outs es).1
        ++ (workerRun outs es).2.map (fun o => WEv.deliver b.wid o.oid)
        ++ [WEv.signal b.wid] ∧
    ∀ ev ∈ (workerRun outs es).1, evWid ev ≠ b.wid := by
  induction es generalizing outs with
  | nil =>
    refine ⟨?_, by intro ev hev; exact absurd hev (List.not_mem_nil ev)⟩
    rw [List.nil_append, workerRun, workerRun, workerRun, processItem]
    rw [if_pos hb, if_pos hd]
    simp
  | cons e rest ih =>
    have hrest : ∀ x ∈ rest, x.wid ≠ b.wid := by
      intro x hx
      exact hids x (List.mem_cons_of_mem e hx)
    obtain ⟨ih1, ih2⟩ := ih (processItem outs e).2 hrest
    constructor
    · rw [List.cons_append, workerRun, workerRun, ih1]
      simp [List.append_assoc]
    · intro ev hev
      rw [workerRun] at hev
      rw [List.mem_append] at hev
      rcases hev with hev | hev
      · rw [processItem_wid outs e ev hev]
        exact hids e (List.mem_cons_self e rest)
      · exact ih2 ev hev

/-- Witness for C1: one destination, one earlier non-blocking record (item 0,
record 10), then a blocking record (item 1, record 11); the trace is the
earlier delivery, then the blocking delivery, then the completion signal. -/
theorem c1_fifo_blocking_witness :
    (workerRun [⟨0, false, none⟩] [⟨0, some 10, false⟩, ⟨1, some 11, true⟩]).1
      = (workerRun [⟨0, false, none⟩] [⟨0, some 10, false⟩]).1
        ++ (workerRun [⟨0, false, none⟩] [⟨0, some 10, false⟩]).2.map
            (fun o => WEv.deliver 1 o.oid)
        ++ [WEv.signal 1] ∧
    ∀ ev ∈ (workerRun [⟨0, false, none⟩] [⟨0, some 10, false⟩]).1,
      evWid ev ≠ 1 :=
  c1_fifo_blocking [⟨0, false, none⟩] [⟨0, some 10, false⟩] ⟨1, some 11, true⟩
    rfl rfl (by decide)

end LogRepo
